import Mathlib

/-!
Verification of the velo privacy-pool programs (velo, velo_mixer,
velo_private_tx, velo_stealth) against their natural-language specification.

Shallow embedding conventions:
* 32-byte values ([u8; 32]: commitments, nullifier hashes, roots, public
  keys) and other byte arrays are modeled as lists of bytes (List Nat);
  the model only ever compares them for equality or against fixed all-zero
  constants, so the length is carried by the constants themselves.
* u64 quantities (lamport balances, counters, fees, denominations) are
  modeled as Nat.  Wrap-around is unreachable for every quantity a claim
  speaks about: tree indices are capped at 2^20 by the code's own guard,
  and lamport balances are bounded by the fixed total currency supply,
  far below 2^64, in any ledger state the runtime admits.  The one u32
  counter incremented without a guard (velo's next_index) is reduced
  mod 2^32 explicitly.
* The Poseidon pair hash (light_poseidon crate) and keccak
  (solana_program crate) are external dependencies, not code of this
  repository; following the specification, which requires the accumulator
  to treat the hash as a pluggable parameter, they are passed as explicit
  function parameters H and K.
* Lamport movements act on a ledger, a total map from addresses to
  balances.  A debit below the available balance aborts the instruction;
  this system-level abort is surfaced as the InsufficientFunds error of
  the specification's ledger-substrate contract.
* Each instruction is translated as a function from a state and its
  arguments to a pair of the state as mutated so far and an optional
  error, mirroring the sequential execution of the Rust body: a require!
  that fails before any mutation returns the input state unchanged,
  while an error raised after a mutation returns the partially mutated
  state.  A success carries no error (none).
-/

namespace Velo

/-- Byte strings ([u8; N] in the source).  Bytes are Nat (each < 256 at
runtime; the model never does byte arithmetic except the explicit xor and
mod-256 casts of the source). -/
abbrev Word := List Nat

/-- The all-zero 32-byte array [0u8; 32]. -/
def zeroBytes32 : Word := List.replicate 32 0

/-- The all-zero 64-byte array [0u8; 64]. -/
def zeroBytes64 : Word := List.replicate 64 0

/-- The all-zero 128-byte array [0u8; 128]. -/
def zeroBytes128 : Word := List.replicate 128 0

/-- u64::to_le_bytes. -/
def u64ToLeBytes (n : Nat) : Word :=
  [n % 256, n / 2 ^ 8 % 256, n / 2 ^ 16 % 256, n / 2 ^ 24 % 256,
   n / 2 ^ 32 % 256, n / 2 ^ 40 % 256, n / 2 ^ 48 % 256, n / 2 ^ 56 % 256]

/-- iter().all(|&x| x == 0) on a byte string. -/
def isAllZero (w : Word) : Bool := w.all (fun x => x == 0)

/-- Lamport ledger: balance of every address. -/
abbrev Ledger := Word → Nat

/-- Credit an account (the += on lamports). -/
def ledgerAdd (l : Ledger) (a : Word) (amt : Nat) : Ledger :=
  Function.update l a (l a + amt)

/-- Debit an account (the -= on lamports); a debit beyond the balance
aborts the instruction, which the model reports as a ledger failure. -/
def ledgerSub (l : Ledger) (a : Word) (amt : Nat) : Option Ledger :=
  if amt ≤ l a then some (Function.update l a (l a - amt)) else none

/-- transfer(from, to, amount) of the ledger substrate: the system-program
transfer / raw lamport pair used throughout the source. -/
def transferLamports (l : Ledger) (src dst : Word) (amt : Nat) : Option Ledger :=
  (ledgerSub l src amt).map (fun l' => ledgerAdd l' dst amt)

end Velo

namespace Velo.Mixer

/-- MERKLE_TREE_DEPTH — supports 2^20 deposits. -/
def MERKLE_TREE_DEPTH : Nat := 20

/-- ROOT_HISTORY_SIZE — number of historical roots kept. -/
def ROOT_HISTORY_SIZE : Nat := 30

/-- MerkleTree state of velo_mixer (incremental tree plus ring buffer of
historical roots). -/
structure MerkleTree where
  levels : Nat
  next_index : Nat
  root_history : List Word
  current_root_index : Nat
  filled_subtrees : List Word
  zeros : List Word
  deriving DecidableEq

/-- The zeros chain of MerkleTree::new: zeros[0] = [0u8; 32],
zeros[i+1] = H(zeros[i], zeros[i]); n entries are produced. -/
def zerosChain (H : Word → Word → Word) : Nat → Word → List Word
  | 0, _ => []
  | n + 1, cur => cur :: zerosChain H n (H cur cur)

/-- MerkleTree::new.  H is the pair hash (Poseidon in the source; an
external crate, passed as a parameter per the hash-agnostic accumulator
contract of the specification). -/
def MerkleTree.new (H : Word → Word → Word) : MerkleTree :=
  let zeros := zerosChain H (MERKLE_TREE_DEPTH + 1) zeroBytes32
  { levels := MERKLE_TREE_DEPTH
    next_index := 0
    root_history := List.replicate ROOT_HISTORY_SIZE zeroBytes32
    current_root_index := 0
    filled_subtrees := zeros
    zeros := zeros }

/-- The level loop of MerkleTree::insert: walks the given number of levels
consuming filled_subtrees and zeros positionally; returns the updated
filled_subtrees prefix and the computed root. -/
def insertLoop (H : Word → Word → Word) :
    Nat → List Word → List Word → Nat → Word → List Word × Word
  | 0, filled, _, _, h => (filled, h)
  | n + 1, filled, zs, idx, h =>
    match filled, zs with
    | f :: fs, z :: zrest =>
      if idx % 2 = 0 then
        let r := insertLoop H n fs zrest (idx / 2) (H h z)
        (h :: r.1, r.2)
      else
        let r := insertLoop H n fs zrest (idx / 2) (H f h)
        (f :: r.1, r.2)
    | _, _ => (filled, h)

/-- MerkleTree::insert: computes the new root along the authenticated
path, advances the ring-buffer cursor, stores the root there, increments
next_index, and returns the leaf index (the source's Ok(index)). -/
def MerkleTree.insert (t : MerkleTree) (H : Word → Word → Word) (leaf : Word) :
    MerkleTree × Nat :=
  let index := t.next_index
  let walked := insertLoop H t.levels t.filled_subtrees t.zeros index leaf
  let newIdx := (t.current_root_index + 1) % ROOT_HISTORY_SIZE
  ({ t with
      filled_subtrees := walked.1
      current_root_index := newIdx
      root_history := t.root_history.set newIdx walked.2
      next_index := t.next_index + 1 }, index)

/-- MerkleTree::is_known_root: the all-zero root is never known; otherwise
membership in the root-history ring buffer. -/
def MerkleTree.is_known_root (t : MerkleTree) (root : Word) : Bool :=
  if root = zeroBytes32 then false
  else decide (root ∈ t.root_history)

/-- MerkleTree::get_current_root. -/
def MerkleTree.get_current_root (t : MerkleTree) : Word :=
  t.root_history.getD t.current_root_index zeroBytes32

/-- MixerPool account state (authority and bump omitted: no modeled
instruction reads them). -/
structure MixerPool where
  denomination : Nat
  merkle_tree : MerkleTree
  nullifier_hashes : List Word
  total_deposits : Nat
  total_withdrawals : Nat
  is_active : Bool
  deriving DecidableEq

/-- VeloMixerError, extended with the ledger substrate's InsufficientFunds:
a lamport transfer or debit beyond the available balance aborts the
instruction at the system level (the specification's transfer contract);
the source enum has no variant for it because the abort is raised by the
runtime, not by a require!. -/
inductive VeloMixerError where
  | InvalidDenomination
  | PoolInactive
  | MerkleTreeFull
  | NullifierAlreadyUsed
  | InvalidMerkleRoot
  | InvalidProof
  | FeeExceedsDenomination
  | InsufficientFunds
  deriving DecidableEq

/-- Groth16 proof bytes (a: 64, b: 128, c: 64). -/
structure ZKProof where
  a : Word
  b : Word
  c : Word
  deriving DecidableEq

/-- velo_mixer's verify_proof.  K is keccak (solana_program crate, an
external dependency passed as a parameter).  The source checks only that
the proof components are not all-zero and that the keccak digest of the
concatenated public inputs is not all-zero. -/
def verify_proof (K : Word → Word) (proof : ZKProof)
    (root nullifier_hash recipient relayer : Word) (fee : Nat) : Bool :=
  if proof.a = zeroBytes64 ∨ proof.b = zeroBytes128 ∨ proof.c = zeroBytes64 then
    false
  else
    let public_inputs := root ++ nullifier_hash ++ recipient ++ relayer ++ u64ToLeBytes fee
    !(isAllZero (K public_inputs))

/-- Instruction-level state of one mixer pool: the pool account, its vault
PDA address, and the lamport ledger. -/
structure MixerState where
  pool : MixerPool
  vault : Word
  ledger : Ledger

/-- The deposit instruction of velo_mixer: requires the pool active and the
tree not full, collects the denomination from the depositor, inserts the
commitment and bumps the deposit counter. -/
def deposit (H : Word → Word → Word) (s : MixerState)
    (depositor commitment : Word) : MixerState × Option VeloMixerError :=
  if s.pool.is_active = false then (s, some .PoolInactive)
  else if 1 <<< MERKLE_TREE_DEPTH ≤ s.pool.merkle_tree.next_index then
    (s, some .MerkleTreeFull)
  else
    match transferLamports s.ledger depositor s.vault s.pool.denomination with
    | none => (s, some .InsufficientFunds)
    | some l' =>
      let inserted := s.pool.merkle_tree.insert H commitment
      ({ s with
          ledger := l'
          pool := { s.pool with
                      merkle_tree := inserted.1
                      total_deposits := s.pool.total_deposits + 1 } }, none)

/-- The withdraw instruction of velo_mixer, in source order: pool-active,
nullifier-unused, known-root and proof checks; then the nullifier is
recorded, denomination - fee (checked subtraction) goes to the recipient,
and the fee goes to the relayer account only when fee > 0 and the relayer
key is not Pubkey::default(); finally the withdrawal counter is bumped. -/
def withdraw (K : Word → Word) (s : MixerState) (proof : ZKProof)
    (root nullifier_hash recipient relayer : Word) (fee : Nat) :
    MixerState × Option VeloMixerError :=
  if s.pool.is_active = false then (s, some .PoolInactive)
  else if nullifier_hash ∈ s.pool.nullifier_hashes then
    (s, some .NullifierAlreadyUsed)
  else if s.pool.merkle_tree.is_known_root root = false then
    (s, some .InvalidMerkleRoot)
  else if verify_proof K proof root nullifier_hash recipient relayer fee = false then
    (s, some .InvalidProof)
  else
    let s1 := { s with
                 pool := { s.pool with
                            nullifier_hashes := s.pool.nullifier_hashes ++ [nullifier_hash] } }
    if s1.pool.denomination < fee then (s1, some .FeeExceedsDenomination)
    else
      let withdrawal_amount := s1.pool.denomination - fee
      match transferLamports s1.ledger s1.vault recipient withdrawal_amount with
      | none => (s1, some .InsufficientFunds)
      | some l2 =>
        let s2 := { s1 with ledger := l2 }
        if 0 < fee ∧ relayer ≠ zeroBytes32 then
          match transferLamports s2.ledger s2.vault relayer fee with
          | none => (s2, some .InsufficientFunds)
          | some l3 =>
            ({ s2 with
                ledger := l3
                pool := { s2.pool with
                           total_withdrawals := s2.pool.total_withdrawals + 1 } }, none)
        else
          ({ s2 with
              pool := { s2.pool with
                         total_withdrawals := s2.pool.total_withdrawals + 1 } }, none)

/-- The set_pool_status admin instruction. -/
def set_pool_status (s : MixerState) (is_active : Bool) :
    MixerState × Option VeloMixerError :=
  ({ s with pool := { s.pool with is_active := is_active } }, none)

/-- One invocation of a mixer-pool instruction, with its caller-supplied
arguments and accounts. -/
inductive MixerOp where
  | depositOp (depositor commitment : Word)
  | withdrawOp (proof : ZKProof) (root nullifier_hash recipient relayer : Word) (fee : Nat)
  | setStatusOp (is_active : Bool)

/-- Apply one instruction to the pool state. -/
def applyOp (H : Word → Word → Word) (K : Word → Word) (s : MixerState) :
    MixerOp → MixerState × Option VeloMixerError
  | .depositOp depositor commitment => deposit H s depositor commitment
  | .withdrawOp proof root nh recipient relayer fee =>
      withdraw K s proof root nh recipient relayer fee
  | .setStatusOp b => set_pool_status s b

/-- Run a sequence of instructions, keeping each instruction's resulting
state (the partially mutated state on error; membership facts proved below
hold under rollback semantics a fortiori, since a rolled-back state is the
unmutated input state). -/
def runOps (H : Word → Word → Word) (K : Word → Word) (s : MixerState)
    (ops : List MixerOp) : MixerState :=
  ops.foldl (fun st op => (applyOp H K st op).1) s

end Velo.Mixer

namespace Velo.Core

/-- VeloPool account of the velo program (authority omitted). -/
structure VeloPool where
  denomination : Nat
  merkle_root : Word
  next_index : Nat
  total_deposits : Nat
  deriving DecidableEq

/-- VeloError of the velo program, extended with the ledger substrate's
InsufficientFunds for transfer aborts (see the mixer's error comment). -/
inductive VeloError where
  | NullifierAlreadyUsed
  | InvalidProof
  | InsufficientBalance
  | AlreadyClaimed
  | DecoySystemDisabled
  | ShuffleRateLimited
  | InvalidDecoyVaultIndex
  | RelayerNotActive
  | UnauthorizedRelayer
  | FeeTooHigh
  | InvalidNote
  | InsufficientFunds
  deriving DecidableEq

/-- velo's ZkProof (same byte layout as the mixer's). -/
structure ZkProof where
  a : Word
  b : Word
  c : Word
  deriving DecidableEq

/-- velo's verify_proof: the source is an explicit placeholder that
returns true for every proof and every public input. -/
def verify_proof (_proof : ZkProof) (_merkle_root _nullifier_hash _recipient : Word)
    (_denomination : Nat) : Bool :=
  true

/-- velo's compute_new_root: result[i] = commitment[i] xor (index as u8). -/
def compute_new_root (commitment : Word) (index : Nat) : Word :=
  commitment.map (fun b => Nat.xor b (index % 256))

/-- Instruction-level state of one velo pool. -/
structure VeloState where
  pool : VeloPool
  vault : Word
  ledger : Ledger

/-- velo's deposit: transfers the denomination to the vault, then replaces
the Merkle root and bumps next_index (a u32, hence the mod 2^32) and the
deposit counter.  The source performs no capacity check. -/
def deposit (s : VeloState) (depositor commitment : Word) :
    VeloState × Option VeloError :=
  match transferLamports s.ledger depositor s.vault s.pool.denomination with
  | none => (s, some .InsufficientFunds)
  | some l' =>
    ({ s with
        ledger := l'
        pool := { s.pool with
                   merkle_root := compute_new_root commitment s.pool.next_index
                   next_index := (s.pool.next_index + 1) % 2 ^ 32
                   total_deposits := s.pool.total_deposits + 1 } }, none)

/-- RelayerState account. -/
structure RelayerState where
  relayer : Word
  total_relayed : Nat
  total_fees : Nat
  is_active : Bool
  deriving DecidableEq

/-- State touched by relayer_withdraw: the pool, the vault, the set of
nullifier PDAs already initialized (one account per recorded hash), the
relayer record, and the ledger. -/
structure RelayState where
  pool : VeloPool
  vault : Word
  nullifiers : List Word
  relayer_state : RelayerState
  ledger : Ledger

/-- velo's relayer_withdraw.  The nullifier account is created with init,
so a hash whose PDA already exists makes account validation fail before
the body runs (modeled as NullifierAlreadyUsed, the error the enum
reserves for this); the body then checks the relayer registration, the
identity of the submitting relayer, and the 1% fee cap, records the
nullifier, and pays denomination - fee to the recipient and fee (when
positive) to the relayer. -/
def relayer_withdraw (s : RelayState) (caller : Word)
    (nullifier_hash : Word) (fee : Nat) (recipient : Word) :
    RelayState × Option VeloError :=
  if nullifier_hash ∈ s.nullifiers then (s, some .NullifierAlreadyUsed)
  else if s.relayer_state.is_active = false then (s, some .RelayerNotActive)
  else if s.relayer_state.relayer ≠ caller then (s, some .UnauthorizedRelayer)
  else if s.pool.denomination / 100 < fee then (s, some .FeeTooHigh)
  else
    let s1 := { s with nullifiers := s.nullifiers ++ [nullifier_hash] }
    let recipient_amount := s1.pool.denomination - fee
    match transferLamports s1.ledger s1.vault recipient recipient_amount with
    | none => (s1, some .InsufficientFunds)
    | some l2 =>
      let s2 := { s1 with ledger := l2 }
      if 0 < fee then
        match transferLamports s2.ledger s2.vault caller fee with
        | none => (s2, some .InsufficientFunds)
        | some l3 => ({ s2 with ledger := l3 }, none)
      else (s2, none)

/-- DecoyConfig account (pool and authority keys omitted). -/
structure DecoyConfig where
  num_decoy_vaults : Nat
  total_shuffles : Nat
  last_shuffle_slot : Nat
  enabled : Bool
  deriving DecidableEq

/-- State touched by shuffle: the decoy config, the main vault address,
and the ledger.  The decoy vault account for the requested index is
caller-supplied, so it is an argument of shuffle. -/
structure DecoyState where
  config : DecoyConfig
  velo_vault : Word
  ledger : Ledger

/-- velo's shuffle: requires the decoy system enabled, a valid decoy
index, and current_slot > last_shuffle_slot + 2; moves amount between the
main vault and the decoy vault in the given direction, then bumps
total_shuffles and records the slot.  current_slot is the external ledger
height (Clock::get), passed as an argument. -/
def shuffle (s : DecoyState) (current_slot : Nat) (decoy_index : Nat)
    (decoy_vault : Word) (amount : Nat) (direction : Bool) :
    DecoyState × Option VeloError :=
  if s.config.enabled = false then (s, some .DecoySystemDisabled)
  else if s.config.num_decoy_vaults ≤ decoy_index then
    (s, some .InvalidDecoyVaultIndex)
  else if current_slot ≤ s.config.last_shuffle_slot + 2 then
    (s, some .ShuffleRateLimited)
  else
    let moved :=
      if direction then transferLamports s.ledger s.velo_vault decoy_vault amount
      else transferLamports s.ledger decoy_vault s.velo_vault amount
    match moved with
    | none => (s, some .InsufficientFunds)
    | some l' =>
      ({ s with
          ledger := l'
          config := { s.config with
                       total_shuffles := s.config.total_shuffles + 1
                       last_shuffle_slot := current_slot } }, none)

end Velo.Core

namespace Velo.PrivateTx

/-- PrivateProtocol account (authority/treasury keys and bump omitted;
the treasury address lives in the instruction state below). -/
structure PrivateProtocol where
  total_private_transfers : Nat
  total_volume : Nat
  fee_bps : Nat
  is_active : Bool
  deriving DecidableEq

/-- NullifierSet account: a growable vector of 32-byte hashes. -/
structure NullifierSet where
  nullifiers : List Word
  deriving DecidableEq

/-- NullifierSet::contains. -/
def NullifierSet.containsHash (ns : NullifierSet) (nullifier : Word) : Bool :=
  decide (nullifier ∈ ns.nullifiers)

/-- NullifierSet::add: an unconditional push that always returns Ok — the
source registry itself never rejects a duplicate. -/
def NullifierSet.add (ns : NullifierSet) (nullifier : Word) :
    NullifierSet × Option Unit :=
  ({ nullifiers := ns.nullifiers ++ [nullifier] }, none)

/-- VeloPrivateTxError, extended with the ledger substrate's
InsufficientFunds for transfer aborts. -/
inductive VeloPrivateTxError where
  | ProtocolInactive
  | NullifierSpent
  | InvalidProof
  | NoteAlreadySpent
  | FeeTooHigh
  | InsufficientFunds
  deriving DecidableEq

/-- TransferProof: opaque proof bytes plus the claimed Merkle root. -/
structure TransferProof where
  proof_data : Word
  merkle_root : Word
  deriving DecidableEq

/-- verify_transfer_proof: the source accepts any proof with nonempty
bytes and a not-all-zero Merkle root. -/
def verify_transfer_proof (proof : TransferProof) (_input_nullifiers : List Word)
    (_output_commitments : List Word) (_public_amount : Int) : Bool :=
  if proof.proof_data.isEmpty then false
  else !(isAllZero proof.merkle_root)

/-- Instruction-level state of private_transfer. -/
structure PtxState where
  protocol : PrivateProtocol
  nullifier_set : NullifierSet
  vault : Word
  treasury : Word
  ledger : Ledger

/-- private_transfer: protocol-active check, the unspent check for every
input nullifier, the proof check; then all input nullifiers are added,
the public amount is settled (positive: user pays the vault; negative:
the vault pays the user net of the bps fee, and the fee goes to the
treasury), and the stats are bumped. -/
def private_transfer (s : PtxState) (user : Word) (proof : TransferProof)
    (input_nullifiers output_commitments : List Word) (public_amount : Int) :
    PtxState × Option VeloPrivateTxError :=
  if s.protocol.is_active = false then (s, some .ProtocolInactive)
  else if input_nullifiers.any (fun n => s.nullifier_set.containsHash n) then
    (s, some .NullifierSpent)
  else if verify_transfer_proof proof input_nullifiers output_commitments
      public_amount = false then
    (s, some .InvalidProof)
  else
    let s1 := { s with
                 nullifier_set :=
                   (input_nullifiers.foldl (fun ns n => (ns.add n).1) s.nullifier_set) }
    let settled :=
      if 0 < public_amount then
        (transferLamports s1.ledger user s1.vault public_amount.toNat).map
          (fun l' => { s1 with ledger := l' })
      else if public_amount < 0 then
        let amount := (-public_amount).toNat
        let fee := amount * s1.protocol.fee_bps / 10000
        let net_amount := amount - fee
        match transferLamports s1.ledger s1.vault user net_amount with
        | none => none
        | some l2 =>
          if 0 < fee then
            (transferLamports l2 s1.vault s1.treasury fee).map
              (fun l3 => { s1 with ledger := l3 })
          else some { s1 with ledger := l2 }
      else some s1
    match settled with
    | none => (s1, some .InsufficientFunds)
    | some s2 =>
      ({ s2 with
          protocol := { s2.protocol with
                         total_private_transfers := s2.protocol.total_private_transfers + 1
                         total_volume := s2.protocol.total_volume + public_amount.natAbs } },
       none)

end Velo.PrivateTx

namespace Velo.Stealth

/-- StealthAnnouncement account. -/
structure StealthAnnouncement where
  sender : Word
  recipient_meta : Word
  stealth_address : Word
  ephemeral_public_key : Word
  encrypted_view_tag : Word
  amount : Nat
  timestamp : Int
  claimed : Bool
  deriving DecidableEq

/-- VeloStealthError. -/
inductive VeloStealthError where
  | RegistryInactive
  | AlreadyClaimed
  | InvalidOwnershipProof
  | InvalidDerivation
  deriving DecidableEq

/-- velo_stealth's verify_stealth_ownership: the source checks only that
the 64-byte proof is not all-zero; it never consults the ephemeral key or
the recipient's view/spend keys (they are not even parameters). -/
def verify_stealth_ownership (_stealth_address _claimer : Word)
    (proof : Word) : Bool :=
  !(isAllZero proof)

/-- Instruction-level state of claim_stealth_funds: the announcement and
the ledger.  The stealth account is constrained by Anchor to be the
announcement's stealth_address. -/
structure StealthState where
  announcement : StealthAnnouncement
  ledger : Ledger

/-- claim_stealth_funds: requires not yet claimed, then the ownership
check; on accept moves the stealth account's entire balance to the
claimer and sets claimed.  The debit equals the full balance, so the
transfer cannot abort. -/
def claim_stealth_funds (s : StealthState) (claimer : Word) (proof : Word) :
    StealthState × Option VeloStealthError :=
  if s.announcement.claimed then (s, some .AlreadyClaimed)
  else if verify_stealth_ownership s.announcement.stealth_address claimer
      proof = false then
    (s, some .InvalidOwnershipProof)
  else
    let sa := s.announcement.stealth_address
    let amount := s.ledger sa
    let l' := ledgerAdd (Function.update s.ledger sa (s.ledger sa - amount)) claimer amount
    ({ announcement := { s.announcement with claimed := true }, ledger := l' }, none)

/-- Run a sequence of claim attempts (the only instruction that mutates an
existing announcement), keeping each attempt's resulting state. -/
def runClaims (s : StealthState) (attempts : List (Word × Word)) : StealthState :=
  attempts.foldl (fun st cp => (claim_stealth_funds st cp.1 cp.2).1) s

end Velo.Stealth

namespace Velo.Mixer

/-- Fold a sequence of leaf insertions over the tree. -/
def insertMany (H : Word → Word → Word) (t : MerkleTree) (leaves : List Word) :
    MerkleTree :=
  leaves.foldl (fun acc c => (acc.insert H c).1) t

/-- The roots produced by a sequence of insertions, in order: each entry
is the root the corresponding insert computes and stores in the ring
buffer. -/
def rootsProduced (H : Word → Word → Word) (t : MerkleTree) :
    List Word → List Word
  | [] => []
  | c :: cs =>
    (insertLoop H t.levels t.filled_subtrees t.zeros t.next_index c).2 ::
      rootsProduced H (t.insert H c).1 cs

/-- The last min(N, ROOT_HISTORY_SIZE) of a list of produced roots: the
window the ring buffer retains. -/
def windowRoots (rs : List Word) : List Word :=
  rs.drop (rs.length - ROOT_HISTORY_SIZE)

/-- The value the ring-buffer slot j holds after the roots rs (in order)
have been stored: the most recent root whose 1-based position is congruent
to j mod ROOT_HISTORY_SIZE, or the initial all-zero fill if no such root
exists yet. -/
def expectedSlot (rs : List Word) (j : Nat) : Word :=
  let N := rs.length
  let d := (N + ROOT_HISTORY_SIZE - j) % ROOT_HISTORY_SIZE
  if d < N then rs.getD (N - d - 1) zeroBytes32 else zeroBytes32

/-- Ring-buffer invariant relating a tree to the full list of roots its
insertions have produced since creation. -/
def RingInv (t : MerkleTree) (rs : List Word) : Prop :=
  t.root_history.length = ROOT_HISTORY_SIZE ∧
  t.current_root_index = rs.length % ROOT_HISTORY_SIZE ∧
  ∀ j < ROOT_HISTORY_SIZE, t.root_history.getD j zeroBytes32 = expectedSlot rs j

end Velo.Mixer

namespace Velo

/-- Test hash-pair instance for concrete evaluation: a constant function
is enough for the fixtures (no claim hypothesis below needs distinct
roots). -/
def hashFx : Word → Word → Word := fun _ _ => [1]

/-- Test keccak instance for concrete evaluation: a digest that is never
all-zero, as the real keccak digest of the fixture inputs is not. -/
def keccakFx : Word → Word := fun _ => [1]

/-- A structurally valid (not all-zero) Groth16 proof fixture. -/
def proofFx : Mixer.ZKProof :=
  { a := List.replicate 64 1, b := List.replicate 128 1, c := List.replicate 64 1 }

/-- A mixer tree fixture holding one known root [1]. -/
def mixerTreeFx : Mixer.MerkleTree :=
  { levels := 20
    next_index := 1
    root_history := [1] :: List.replicate 29 zeroBytes32
    current_root_index := 1
    filled_subtrees := []
    zeros := [] }

/-- An active mixer pool fixture with denomination 100, one deposit, and
no used nullifier. -/
def mixerPoolFx : Mixer.MixerPool :=
  { denomination := 100
    merkle_tree := mixerTreeFx
    nullifier_hashes := []
    total_deposits := 1
    total_withdrawals := 0
    is_active := true }

/-- The mixer instruction-state fixture: vault address [10], every
account holding 1000 lamports. -/
def mixerStateFx : Mixer.MixerState :=
  { pool := mixerPoolFx, vault := [10], ledger := fun _ => 1000 }

/-- A mixer state whose tree is at full capacity (next_index = 2^20). -/
def mixerStateFullFx : Mixer.MixerState :=
  { pool := { mixerPoolFx with
                merkle_tree := { mixerTreeFx with next_index := 1 <<< 20 } }
    vault := [10]
    ledger := fun _ => 1000 }

/-- The state reached from mixerStateFx by a successful withdrawal of
nullifier hash [2] (used to instantiate the temporal C1 statement). -/
def mixerStateAfterFx : Mixer.MixerState :=
  Mixer.runOps hashFx keccakFx
    (Mixer.withdraw keccakFx mixerStateFx proofFx [1] [2] [3] [4] 0).1 []

/-- A velo proof fixture (contents irrelevant: velo's verifier ignores
them). -/
def veloProofFx : Core.ZkProof :=
  { a := List.replicate 64 1, b := List.replicate 128 1, c := List.replicate 64 1 }

/-- A velo pool fixture whose next_index sits exactly at the mixer's
2^20 capacity bound. -/
def veloStateFx : Core.VeloState :=
  { pool := { denomination := 100
              merkle_root := zeroBytes32
              next_index := 1 <<< 20
              total_deposits := 0 }
    vault := [21]
    ledger := fun _ => 1000 }

/-- A 32-byte commitment fixture. -/
def commitFx : Word := List.replicate 32 7

/-- An unclaimed stealth announcement fixture at stealth address [7]. -/
def stealthAnnFx : Stealth.StealthAnnouncement :=
  { sender := [5]
    recipient_meta := [6]
    stealth_address := [7]
    ephemeral_public_key := List.replicate 32 9
    encrypted_view_tag := List.replicate 32 3
    amount := 50
    timestamp := 0
    claimed := false }

/-- Stealth instruction-state fixture: every account holds 50 lamports. -/
def stealthStateFx : Stealth.StealthState :=
  { announcement := stealthAnnFx, ledger := fun _ => 50 }

/-- Decoy-system state fixture: enabled, two decoy vaults, no shuffle
yet. -/
def decoyStateFx : Core.DecoyState :=
  { config := { num_decoy_vaults := 2
                total_shuffles := 0
                last_shuffle_slot := 0
                enabled := true }
    velo_vault := [30]
    ledger := fun _ => 1000 }

/-- Private-transfer state fixture: active protocol, 50 bps fee, one
spent nullifier [2]. -/
def ptxStateFx : PrivateTx.PtxState :=
  { protocol := { total_private_transfers := 0
                  total_volume := 0
                  fee_bps := 50
                  is_active := true }
    nullifier_set := { nullifiers := [[2]] }
    vault := [40]
    treasury := [41]
    ledger := fun _ => 1000 }

/-- A transfer-proof fixture the stub verifier accepts. -/
def ptxProofFx : PrivateTx.TransferProof :=
  { proof_data := [1], merkle_root := [1] }

/-- The mixer fixture with the pool deactivated. -/
def mixerStateInactiveFx : Mixer.MixerState :=
  (Mixer.set_pool_status mixerStateFx false).1

/-- The stealth fixture after a successful claim by [8]. -/
def stealthClaimedFx : Stealth.StealthState :=
  (Stealth.claim_stealth_funds stealthStateFx [8] (List.replicate 64 1)).1

end Velo

namespace Velo.Mixer

theorem getD_set_lt {l : List Word} {i : Nat} (j : Nat) {a d : Word}
    (hi : i < l.length) :
    (l.set i a).getD j d = if j = i then a else l.getD j d := by
  by_cases hji : j = i
  · subst hji
    rw [if_pos rfl, List.getD_eq_getD_get?, List.get?_set_eq_of_lt a hi]
    rfl
  · rw [if_neg hji, List.getD_eq_getD_get?, List.getD_eq_getD_get?,
      List.get?_set_ne a l (fun h => hji h.symm)]

theorem getD_append_lt {l l2 : List Word} {i : Nat} {d : Word}
    (h : i < l.length) :
    (l ++ l2).getD i d = l.getD i d := by
  rw [List.getD_eq_getD_get?, List.getD_eq_getD_get?, List.get?_append h]

theorem getD_concat_self {l : List Word} {r d : Word} :
    (l ++ [r]).getD l.length d = r := by
  rw [List.getD_eq_getD_get?, List.get?_concat_length]
  rfl

theorem getD_mem {l : List Word} {j : Nat} {d : Word} (hj : j < l.length) :
    l.getD j d ∈ l := by
  rw [List.getD_eq_getD_get?, List.get?_eq_get hj]
  exact List.get_mem l j hj

theorem expectedSlot_append (rs : List Word) (r : Word) {j : Nat}
    (hj : j < ROOT_HISTORY_SIZE) :
    expectedSlot (rs ++ [r]) j =
      if j = (rs.length + 1) % ROOT_HISTORY_SIZE then r
      else expectedSlot rs j := by
  have hj30 : j < 30 := by simpa [ROOT_HISTORY_SIZE] using hj
  simp only [expectedSlot, ROOT_HISTORY_SIZE, List.length_append,
    List.length_singleton] at *
  by_cases hc : j = (rs.length + 1) % 30
  · have hd : (rs.length + 1 + 30 - j) % 30 = 0 := by omega
    rw [if_pos hc, hd, if_pos (by omega)]
    have hidx : rs.length + 1 - 0 - 1 = rs.length := by omega
    rw [hidx, getD_concat_self]
  · have hd : (rs.length + 1 + 30 - j) % 30 = (rs.length + 30 - j) % 30 + 1 := by
      omega
    rw [if_neg hc, hd]
    by_cases hlt : (rs.length + 30 - j) % 30 < rs.length
    · rw [if_pos (by omega), if_pos hlt]
      have hidx : rs.length + 1 - ((rs.length + 30 - j) % 30 + 1) - 1 =
          rs.length - (rs.length + 30 - j) % 30 - 1 := by omega
      rw [hidx]
      exact getD_append_lt (by omega)
    · rw [if_neg (by omega), if_neg hlt]

theorem ringInv_new (H : Word → Word → Word) : RingInv (MerkleTree.new H) [] := by
  refine ⟨by simp [MerkleTree.new, ROOT_HISTORY_SIZE], by simp [MerkleTree.new], ?_⟩
  intro j hj
  have hlt : j < 30 := by simpa [ROOT_HISTORY_SIZE] using hj
  simp only [MerkleTree.new, expectedSlot, ROOT_HISTORY_SIZE, List.length_nil]
  rw [if_neg (by omega), List.getD_eq_getD_get?, List.get?_eq_getElem?,
    List.getElem?_replicate, if_pos hlt]
  rfl

theorem ringInv_insert (H : Word → Word → Word) {t : MerkleTree} {rs : List Word}
    (h : RingInv t rs) (c : Word) :
    RingInv (t.insert H c).1
      (rs ++ [(insertLoop H t.levels t.filled_subtrees t.zeros t.next_index c).2]) := by
  obtain ⟨hlen, hcri, hslots⟩ := h
  have hnewlt : (t.current_root_index + 1) % ROOT_HISTORY_SIZE < t.root_history.length := by
    rw [hlen]
    exact Nat.mod_lt _ (by simp [ROOT_HISTORY_SIZE])
  have hnew : (t.current_root_index + 1) % ROOT_HISTORY_SIZE =
      (rs.length + 1) % ROOT_HISTORY_SIZE := by
    rw [hcri]
    simp only [ROOT_HISTORY_SIZE]
    omega
  refine ⟨?_, ?_, ?_⟩
  · simp [MerkleTree.insert, hlen]
  · simp only [MerkleTree.insert, List.length_append, List.length_singleton]
    exact hnew
  · intro j hj
    simp only [MerkleTree.insert]
    rw [getD_set_lt j hnewlt, hnew, expectedSlot_append _ _ hj]
    by_cases hc : j = (rs.length + 1) % ROOT_HISTORY_SIZE
    · rw [if_pos hc, if_pos hc]
    · rw [if_neg hc, if_neg hc]
      exact hslots j hj

theorem rootsProduced_length (H : Word → Word → Word) (leaves : List Word) :
    ∀ t : MerkleTree, (rootsProduced H t leaves).length = leaves.length := by
  induction leaves with
  | nil => intro t; rfl
  | cons c cs ih =>
    intro t
    simp only [rootsProduced, List.length_cons, ih]

theorem ringInv_insertMany (H : Word → Word → Word) (leaves : List Word) :
    ∀ (t : MerkleTree) (rs : List Word), RingInv t rs →
      RingInv (insertMany H t leaves) (rs ++ rootsProduced H t leaves) := by
  induction leaves with
  | nil =>
    intro t rs h
    simpa [insertMany, rootsProduced] using h
  | cons c cs ih =>
    intro t rs h
    have step := ringInv_insert H h c
    have tail := ih (t.insert H c).1 _ step
    simpa [insertMany, rootsProduced, List.append_assoc] using tail

theorem mem_window_mem_history {t : MerkleTree} {rs : List Word}
    (h : RingInv t rs) {r : Word} (hr : r ∈ windowRoots rs) :
    r ∈ t.root_history := by
  obtain ⟨hlen, _, hslots⟩ := h
  obtain ⟨i, hi⟩ := List.mem_iff_get?.mp hr
  rw [windowRoots, List.get?_eq_getElem?, List.getElem?_drop] at hi
  have hi0lt : rs.length - ROOT_HISTORY_SIZE + i < rs.length := by
    by_contra hge
    rw [List.getElem?_eq_none (by omega)] at hi
    exact Option.noConfusion hi
  set i0 := rs.length - ROOT_HISTORY_SIZE + i with hi0
  have hval : rs.getD i0 zeroBytes32 = r := by
    rw [List.getD_eq_getD_get?, List.get?_eq_getElem?, hi]
    rfl
  have hj30 : (i0 + 1) % 30 < ROOT_HISTORY_SIZE := by
    simp only [ROOT_HISTORY_SIZE]
    omega
  have hslot := hslots ((i0 + 1) % 30) hj30
  have hwin : rs.length - ROOT_HISTORY_SIZE ≤ i0 := by omega
  have hexp : expectedSlot rs ((i0 + 1) % 30) = r := by
    simp only [expectedSlot, ROOT_HISTORY_SIZE] at hwin ⊢
    have hd : (rs.length + 30 - (i0 + 1) % 30) % 30 = rs.length - i0 - 1 := by
      omega
    rw [hd, if_pos (by omega)]
    have hidx : rs.length - (rs.length - i0 - 1) - 1 = i0 := by omega
    rw [hidx, hval]
  rw [hexp] at hslot
  have := getD_mem (l := t.root_history) (j := (i0 + 1) % 30)
    (d := zeroBytes32) (by omega)
  rwa [hslot] at this

theorem mem_history_sub {t : MerkleTree} {rs : List Word}
    (h : RingInv t rs) {x : Word} (hx : x ∈ t.root_history) :
    x = zeroBytes32 ∨ x ∈ windowRoots rs := by
  obtain ⟨hlen, _, hslots⟩ := h
  obtain ⟨j, hj⟩ := List.mem_iff_get?.mp hx
  have hjlt : j < t.root_history.length := by
    by_contra hge
    rw [List.get?_eq_getElem?, List.getElem?_eq_none (by omega)] at hj
    exact Option.noConfusion hj
  have hval : t.root_history.getD j zeroBytes32 = x := by
    rw [List.getD_eq_getD_get?, hj]
    rfl
  rw [hslots j (by omega)] at hval
  simp only [expectedSlot, ROOT_HISTORY_SIZE] at hval
  by_cases hlt : (rs.length + 30 - j) % 30 < rs.length
  · rw [if_pos hlt] at hval
    right
    set d := (rs.length + 30 - j) % 30 with hd
    have hdlt : d < 30 := Nat.mod_lt _ (by omega)
    set i0 := rs.length - d - 1 with hi0
    have hi0lt : i0 < rs.length := by omega
    have hget : rs.get? i0 = some x := by
      rw [List.get?_eq_get hi0lt]
      rw [List.getD_eq_getD_get?, List.get?_eq_get hi0lt] at hval
      simpa using congrArg some hval
    rw [windowRoots]
    simp only [ROOT_HISTORY_SIZE]
    apply List.get?_mem (n := i0 - (rs.length - 30))
    rw [List.get?_eq_getElem?, List.getElem?_drop]
    have hidx : rs.length - 30 + (i0 - (rs.length - 30)) = i0 := by omega
    rw [hidx, ← List.get?_eq_getElem?]
    exact hget
  · rw [if_neg hlt] at hval
    exact Or.inl hval.symm

theorem ringInv_from_new (H : Word → Word → Word) (leaves : List Word) :
    RingInv (insertMany H (MerkleTree.new H) leaves)
      (rootsProduced H (MerkleTree.new H) leaves) := by
  have h := ringInv_insertMany H leaves (MerkleTree.new H) [] (ringInv_new H)
  rwa [List.nil_append] at h

end Velo.Mixer

namespace Velo

/-- C3: after any sequence of N insertions into a freshly initialized
mixer tree (root-history capacity 30), is_known_root answers true for
every root in the retained window of the last min(N, 30) produced roots
(provided that root is not the all-zero value, which the code always
rejects), answers false for every 32-byte value outside that window —
in particular for every root displaced from the ring buffer — and
answers false for the all-zero root even while uninitialized buffer
slots still hold the all-zero fill; the window has exactly min(N, 30)
entries. -/
theorem claim_C3 (H : Word → Word → Word) (leaves : List Word) :
    (∀ r ∈ Mixer.windowRoots (Mixer.rootsProduced H (Mixer.MerkleTree.new H) leaves),
        r ≠ zeroBytes32 →
        (Mixer.insertMany H (Mixer.MerkleTree.new H) leaves).is_known_root r = true) ∧
    (∀ w, w ∉ Mixer.windowRoots (Mixer.rootsProduced H (Mixer.MerkleTree.new H) leaves) →
        (Mixer.insertMany H (Mixer.MerkleTree.new H) leaves).is_known_root w = false) ∧
    (Mixer.insertMany H (Mixer.MerkleTree.new H) leaves).is_known_root zeroBytes32 = false ∧
    (Mixer.windowRoots (Mixer.rootsProduced H (Mixer.MerkleTree.new H) leaves)).length =
      min leaves.length Mixer.ROOT_HISTORY_SIZE := by
  have hinv := Mixer.ringInv_from_new H leaves
  refine ⟨?_, ?_, ?_, ?_⟩
  · intro r hr hnz
    have hmem := Mixer.mem_window_mem_history hinv hr
    rw [Mixer.MerkleTree.is_known_root, if_neg hnz]
    exact decide_eq_true hmem
  · intro w hw
    rw [Mixer.MerkleTree.is_known_root]
    by_cases hz : w = zeroBytes32
    · rw [if_pos hz]
    · rw [if_neg hz]
      apply decide_eq_false
      intro hmem
      rcases Mixer.mem_history_sub hinv hmem with h0 | hwin
      exacts [hz h0, hw hwin]
  · rw [Mixer.MerkleTree.is_known_root, if_pos rfl]
  · rw [Mixer.windowRoots, List.length_drop, Mixer.rootsProduced_length]
    omega

/-- C3 witness: a concrete tree with one inserted leaf under a concrete
hash instance; the produced root [1] is known, the unproduced value [2]
and the all-zero root are not. -/
theorem claim_C3_witness :
    (Mixer.insertMany (fun _ _ => [1]) (Mixer.MerkleTree.new (fun _ _ => [1]))
        [[7]]).is_known_root [1] = true ∧
    (Mixer.insertMany (fun _ _ => [1]) (Mixer.MerkleTree.new (fun _ _ => [1]))
        [[7]]).is_known_root [2] = false ∧
    (Mixer.insertMany (fun _ _ => [1]) (Mixer.MerkleTree.new (fun _ _ => [1]))
        [[7]]).is_known_root zeroBytes32 = false :=
  ⟨(claim_C3 (fun _ _ => [1]) [[7]]).1 [1] (by decide) (by decide),
   (claim_C3 (fun _ _ => [1]) [[7]]).2.1 [2] (by decide),
   (claim_C3 (fun _ _ => [1]) [[7]]).2.2.1⟩

end Velo

namespace Velo.Mixer

theorem withdraw_success_mem {K : Word → Word} {s : MixerState} {proof : ZKProof}
    {root nh recipient relayer : Word} {fee : Nat} :
    (withdraw K s proof root nh recipient relayer fee).2 = none →
    nh ∈ (withdraw K s proof root nh recipient relayer fee).1.pool.nullifier_hashes := by
  simp only [withdraw]
  repeat' split
  all_goals intro h
  all_goals simp_all [List.mem_append]

theorem withdraw_mem_mono {K : Word → Word} {s : MixerState} {proof : ZKProof}
    {root nh recipient relayer : Word} {fee : Nat} {x : Word}
    (hx : x ∈ s.pool.nullifier_hashes) :
    x ∈ (withdraw K s proof root nh recipient relayer fee).1.pool.nullifier_hashes := by
  simp only [withdraw]
  repeat' split
  all_goals simp [List.mem_append, hx]

theorem deposit_nullifiers (H : Word → Word → Word) (s : MixerState)
    (dep c : Word) :
    (deposit H s dep c).1.pool.nullifier_hashes = s.pool.nullifier_hashes := by
  simp only [deposit]
  repeat' split
  all_goals simp

theorem applyOp_mem (H : Word → Word → Word) (K : Word → Word) (s : MixerState)
    (op : MixerOp) {x : Word} (hx : x ∈ s.pool.nullifier_hashes) :
    x ∈ (applyOp H K s op).1.pool.nullifier_hashes := by
  cases op with
  | depositOp dep c => rw [applyOp, deposit_nullifiers]; exact hx
  | withdrawOp proof root nh recipient relayer fee => exact withdraw_mem_mono hx
  | setStatusOp b => exact hx

theorem runOps_mem (H : Word → Word → Word) (K : Word → Word)
    (ops : List MixerOp) :
    ∀ (s : MixerState) {x : Word}, x ∈ s.pool.nullifier_hashes →
      x ∈ (runOps H K s ops).pool.nullifier_hashes := by
  induction ops with
  | nil => intro s x hx; exact hx
  | cons op rest ih =>
    intro s x hx
    exact ih _ (applyOp_mem H K s op hx)

theorem withdraw_used_nullifier {K : Word → Word} {s : MixerState}
    {proof : ZKProof} {root nh recipient relayer : Word} {fee : Nat}
    (hmem : nh ∈ s.pool.nullifier_hashes) :
    (withdraw K s proof root nh recipient relayer fee).1 = s ∧
    (withdraw K s proof root nh recipient relayer fee).2 ≠ none ∧
    (s.pool.is_active = true →
      (withdraw K s proof root nh recipient relayer fee).2 =
        some VeloMixerError.NullifierAlreadyUsed) := by
  rw [withdraw]
  by_cases ha : s.pool.is_active = false
  · rw [if_pos ha]
    refine ⟨rfl, by simp, ?_⟩
    intro htrue
    rw [htrue] at ha
    cases ha
  · rw [if_neg ha, if_pos hmem]
    exact ⟨rfl, by simp, fun _ => rfl⟩

end Velo.Mixer

namespace Velo

/-- C1 (amended): once a nullifier hash has been accepted by a successful
mixer withdraw, every subsequent withdraw supplying the same hash — after
any interleaving of deposits, withdrawals and status changes — fails
without mutating the pool (so the hash is recorded at most once), and the
error is NullifierAlreadyUsed whenever the pool is active at that moment
(a deactivated pool rejects earlier with PoolInactive, as the
counterexample shows). -/
theorem claim_C1_amended (H : Word → Word → Word) (K : Word → Word)
    (s : Mixer.MixerState) (proof : Mixer.ZKProof)
    (root nh recipient relayer : Word) (fee : Nat)
    (hsucc : (Mixer.withdraw K s proof root nh recipient relayer fee).2 = none)
    (ops : List Mixer.MixerOp) (t : Mixer.MixerState)
    (ht : t = Mixer.runOps H K
      (Mixer.withdraw K s proof root nh recipient relayer fee).1 ops)
    (proof' : Mixer.ZKProof) (root' recipient' relayer' : Word) (fee' : Nat) :
    (Mixer.withdraw K t proof' root' nh recipient' relayer' fee').1 = t ∧
    (Mixer.withdraw K t proof' root' nh recipient' relayer' fee').2 ≠ none ∧
    (t.pool.is_active = true →
      (Mixer.withdraw K t proof' root' nh recipient' relayer' fee').2 =
        some Mixer.VeloMixerError.NullifierAlreadyUsed) := by
  have h1 := Mixer.withdraw_success_mem hsucc
  have h2 : nh ∈ t.pool.nullifier_hashes := by
    rw [ht]
    exact Mixer.runOps_mem H K ops _ h1
  exact Mixer.withdraw_used_nullifier h2

/-- C1 counterexample: after a successful withdrawal of nullifier hash [2]
the pool is deactivated; the next withdraw with the same hash fails with
PoolInactive, not NullifierAlreadyUsed, refuting the claimed error for
every subsequent attempt.  Moreover the private-tx registry's raw insert
(NullifierSet::add) succeeds even for a value it already contains,
refuting "registry insert succeeds for a given value at most once" at the
registry-API level (uniqueness is enforced only by the contains guard of
the calling instruction). -/
theorem claim_C1_counterexample :
    (Mixer.withdraw keccakFx mixerStateFx proofFx [1] [2] [3] [4] 0).2 = none ∧
    (Mixer.withdraw keccakFx
        (Mixer.set_pool_status
          (Mixer.withdraw keccakFx mixerStateFx proofFx [1] [2] [3] [4] 0).1 false).1
        proofFx [1] [2] [3] [4] 0).2 = some .PoolInactive ∧
    Mixer.VeloMixerError.PoolInactive ≠ Mixer.VeloMixerError.NullifierAlreadyUsed ∧
    ((PrivateTx.NullifierSet.mk [[2]]).add [2]).2 = none ∧
    (PrivateTx.NullifierSet.mk [[2]]).containsHash [2] = true := by
  refine ⟨by decide, by decide, by decide, by decide, by decide⟩

/-- C1 witness: the amended statement applied at the concrete fixture:
immediately after a successful withdrawal of hash [2] on the still-active
pool, a second withdraw with [2] leaves the state unchanged and fails
with NullifierAlreadyUsed. -/
theorem claim_C1_amended_witness :
    (Mixer.withdraw keccakFx mixerStateAfterFx proofFx [1] [2] [3] [4] 0).1 =
      mixerStateAfterFx ∧
    (Mixer.withdraw keccakFx mixerStateAfterFx proofFx [1] [2] [3] [4] 0).2 =
      some Mixer.VeloMixerError.NullifierAlreadyUsed := by
  have h := claim_C1_amended hashFx keccakFx mixerStateFx proofFx [1] [2] [3] [4] 0
    (by decide) [] mixerStateAfterFx rfl proofFx [1] [3] [4] 0
  exact ⟨h.1, h.2.2 (by decide)⟩

end Velo

namespace Velo.Mixer

theorem deposit_error_frame (H : Word → Word → Word) (s : MixerState)
    (dep c : Word) (e : VeloMixerError) :
    (deposit H s dep c).2 = some e → (deposit H s dep c).1 = s := by
  simp only [deposit]
  repeat' split
  all_goals intro h
  all_goals first | rfl | simp_all

theorem withdraw_guard_frame (K : Word → Word) (s : MixerState)
    (proof : ZKProof) (root nh recipient relayer : Word) (fee : Nat)
    (e : VeloMixerError)
    (he : e = .PoolInactive ∨ e = .NullifierAlreadyUsed ∨
      e = .InvalidMerkleRoot ∨ e = .InvalidProof) :
    (withdraw K s proof root nh recipient relayer fee).2 = some e →
    (withdraw K s proof root nh recipient relayer fee).1 = s := by
  simp only [withdraw]
  repeat' split
  all_goals intro h
  all_goals first | rfl | (rcases he with he | he | he | he <;> simp_all)

end Velo.Mixer

namespace Velo.PrivateTx

theorem private_transfer_guard_frame (s : PtxState) (user : Word)
    (proof : TransferProof) (ins outs : List Word) (pa : Int)
    (e : VeloPrivateTxError)
    (he : e = .ProtocolInactive ∨ e = .NullifierSpent ∨ e = .InvalidProof) :
    (private_transfer s user proof ins outs pa).2 = some e →
    (private_transfer s user proof ins outs pa).1 = s := by
  simp only [private_transfer]
  repeat' split
  all_goals intro h
  all_goals first | rfl | (rcases he with he | he | he <;> simp_all)

end Velo.PrivateTx

namespace Velo.Stealth

theorem claim_error_frame (s : StealthState) (claimer proof : Word)
    (e : VeloStealthError) :
    (claim_stealth_funds s claimer proof).2 = some e →
    (claim_stealth_funds s claimer proof).1 = s := by
  simp only [claim_stealth_funds]
  repeat' split
  all_goals intro h
  all_goals first | rfl | simp_all

end Velo.Stealth

namespace Velo.Core

theorem shuffle_error_frame (s : DecoyState) (slot idx : Nat) (dv : Word)
    (amt : Nat) (dir : Bool) (e : VeloError) :
    (shuffle s slot idx dv amt dir).2 = some e →
    (shuffle s slot idx dv amt dir).1 = s := by
  simp only [shuffle]
  repeat' split
  all_goals intro h
  all_goals first | rfl | simp_all

end Velo.Core

namespace Velo

/-- C5 (amended): every validation error — an error the instruction
raises at a require!-style guard before its first mutation (inactive
pool or protocol, reused nullifier, unknown root, invalid proof or
ownership proof, already-claimed announcement, full tree, bad decoy
index, rate limit) — leaves the state exactly as it was; additionally
every deposit, stealth-claim and shuffle error whatsoever does.  The
mixer withdraw's FeeExceedsDenomination and its post-registration
ledger failures are the exception: as the counterexample shows they
are raised after the nullifier has been pushed, so at the instruction
level the operation is not all-or-nothing there; the enclosing
ledger's transaction rollback, outside this code, supplies atomicity
for those paths. -/
theorem claim_C5_amended :
    (∀ (H : Word → Word → Word) (s : Mixer.MixerState) (dep c : Word)
        (e : Mixer.VeloMixerError),
        (Mixer.deposit H s dep c).2 = some e → (Mixer.deposit H s dep c).1 = s) ∧
    (∀ (K : Word → Word) (s : Mixer.MixerState) (proof : Mixer.ZKProof)
        (root nh recipient relayer : Word) (fee : Nat) (e : Mixer.VeloMixerError),
        (e = .PoolInactive ∨ e = .NullifierAlreadyUsed ∨
          e = .InvalidMerkleRoot ∨ e = .InvalidProof) →
        (Mixer.withdraw K s proof root nh recipient relayer fee).2 = some e →
        (Mixer.withdraw K s proof root nh recipient relayer fee).1 = s) ∧
    (∀ (s : PrivateTx.PtxState) (user : Word) (proof : PrivateTx.TransferProof)
        (ins outs : List Word) (pa : Int) (e : PrivateTx.VeloPrivateTxError),
        (e = .ProtocolInactive ∨ e = .NullifierSpent ∨ e = .InvalidProof) →
        (PrivateTx.private_transfer s user proof ins outs pa).2 = some e →
        (PrivateTx.private_transfer s user proof ins outs pa).1 = s) ∧
    (∀ (s : Stealth.StealthState) (claimer proof : Word)
        (e : Stealth.VeloStealthError),
        (Stealth.claim_stealth_funds s claimer proof).2 = some e →
        (Stealth.claim_stealth_funds s claimer proof).1 = s) ∧
    (∀ (s : Core.DecoyState) (slot idx : Nat) (dv : Word) (amt : Nat)
        (dir : Bool) (e : Core.VeloError),
        (Core.shuffle s slot idx dv amt dir).2 = some e →
        (Core.shuffle s slot idx dv amt dir).1 = s) :=
  ⟨Mixer.deposit_error_frame,
   fun K s proof root nh recipient relayer fee e he h =>
     Mixer.withdraw_guard_frame K s proof root nh recipient relayer fee e he h,
   fun s user proof ins outs pa e he h =>
     PrivateTx.private_transfer_guard_frame s user proof ins outs pa e he h,
   Stealth.claim_error_frame,
   Core.shuffle_error_frame⟩

/-- C5 counterexample: a mixer withdrawal that passes every check but
carries fee = 101 > denomination = 100 errs with FeeExceedsDenomination
after recording the nullifier, so the returned state differs from the
starting state — partial mutation is observable in the instruction-local
(pre-rollback) view. -/
theorem claim_C5_counterexample :
    (Mixer.withdraw keccakFx mixerStateFx proofFx [1] [2] [3] [4] 101).2 =
      some .FeeExceedsDenomination ∧
    (Mixer.withdraw keccakFx mixerStateFx proofFx [1] [2] [3] [4] 101).1.pool.nullifier_hashes ≠
      mixerStateFx.pool.nullifier_hashes := by
  refine ⟨by decide, by decide⟩

/-- C5 witness: the amended statement applied at two concrete inputs —
a withdraw on a deactivated pool (PoolInactive) and a deposit on a full
tree (MerkleTreeFull) both leave the state untouched. -/
theorem claim_C5_amended_witness :
    (Mixer.withdraw keccakFx mixerStateInactiveFx proofFx [1] [2] [3] [4] 0).1 =
      mixerStateInactiveFx ∧
    (Mixer.deposit hashFx mixerStateFullFx [20] commitFx).1 = mixerStateFullFx := by
  refine ⟨claim_C5_amended.2.1 keccakFx mixerStateInactiveFx proofFx [1] [2] [3] [4] 0
      .PoolInactive (Or.inl rfl) (by decide),
    claim_C5_amended.1 hashFx mixerStateFullFx [20] commitFx .MerkleTreeFull (by decide)⟩

end Velo

namespace Velo

theorem transferLamports_spec {l : Ledger} {src dst : Word} {amt : Nat}
    {l' : Ledger} (h : transferLamports l src dst amt = some l') :
    amt ≤ l src ∧
    (∀ a, a ≠ src → a ≠ dst → l' a = l a) ∧
    (src ≠ dst → l' src = l src - amt ∧ l' dst = l dst + amt) := by
  rw [transferLamports, ledgerSub] at h
  by_cases hle : amt ≤ l src
  · rw [if_pos hle] at h
    simp only [Option.map_some', Option.some.injEq] at h
    subst h
    refine ⟨hle, ?_, ?_⟩
    · intro a hs hd
      rw [ledgerAdd, Function.update_noteq hd, Function.update_noteq hs]
    · intro hsd
      constructor
      · rw [ledgerAdd, Function.update_noteq hsd, Function.update_same]
      · rw [ledgerAdd, Function.update_same, Function.update_noteq (Ne.symm hsd)]
  · rw [if_neg hle] at h
    simp at h

end Velo

namespace Velo.Mixer

theorem withdraw_payout {K : Word → Word} {s : MixerState} {proof : ZKProof}
    {root nh recipient relayer : Word} {fee : Nat}
    (hsucc : (withdraw K s proof root nh recipient relayer fee).2 = none)
    (hrv : recipient ≠ s.vault) (hlv : relayer ≠ s.vault)
    (hlr : relayer ≠ recipient) :
    fee ≤ s.pool.denomination ∧
    (withdraw K s proof root nh recipient relayer fee).1.ledger recipient =
      s.ledger recipient + (s.pool.denomination - fee) ∧
    ((0 < fee ∧ relayer ≠ zeroBytes32) →
      (withdraw K s proof root nh recipient relayer fee).1.ledger relayer =
        s.ledger relayer + fee ∧
      (withdraw K s proof root nh recipient relayer fee).1.ledger s.vault =
        s.ledger s.vault - (s.pool.denomination - fee) - fee) ∧
    (¬(0 < fee ∧ relayer ≠ zeroBytes32) →
      (withdraw K s proof root nh recipient relayer fee).1.ledger relayer =
        s.ledger relayer ∧
      (withdraw K s proof root nh recipient relayer fee).1.ledger s.vault =
        s.ledger s.vault - (s.pool.denomination - fee)) ∧
    (∀ a, a ≠ s.vault → a ≠ recipient → a ≠ relayer →
      (withdraw K s proof root nh recipient relayer fee).1.ledger a = s.ledger a) := by
  revert hsucc
  simp only [withdraw]
  by_cases h1 : s.pool.is_active = false
  · rw [if_pos h1]
    intro hsucc
    exact absurd hsucc (by simp)
  rw [if_neg h1]
  by_cases h2 : nh ∈ s.pool.nullifier_hashes
  · rw [if_pos h2]
    intro hsucc
    exact absurd hsucc (by simp)
  rw [if_neg h2]
  by_cases h3 : s.pool.merkle_tree.is_known_root root = false
  · rw [if_pos h3]
    intro hsucc
    exact absurd hsucc (by simp)
  rw [if_neg h3]
  by_cases h4 : verify_proof K proof root nh recipient relayer fee = false
  · rw [if_pos h4]
    intro hsucc
    exact absurd hsucc (by simp)
  rw [if_neg h4]
  by_cases h5 : s.pool.denomination < fee
  · rw [if_pos h5]
    intro hsucc
    exact absurd hsucc (by simp)
  rw [if_neg h5]
  rcases htr1 : transferLamports s.ledger s.vault recipient
      (s.pool.denomination - fee) with _ | l2
  · intro hsucc
    exact absurd hsucc (by simp)
  obtain ⟨hle1, hframe1, hmove1⟩ := transferLamports_spec htr1
  obtain ⟨hsrc1, hdst1⟩ := hmove1 (Ne.symm hrv)
  dsimp only
  by_cases h6 : 0 < fee ∧ relayer ≠ zeroBytes32
  · rw [if_pos h6]
    rcases htr2 : transferLamports l2 s.vault relayer fee with _ | l3
    · intro hsucc
      exact absurd hsucc (by simp)
    obtain ⟨hle2, hframe2, hmove2⟩ := transferLamports_spec htr2
    obtain ⟨hsrc2, hdst2⟩ := hmove2 (Ne.symm hlv)
    intro _
    refine ⟨by omega, ?_, ?_, ?_, ?_⟩
    · simp only [hframe2 recipient hrv (Ne.symm hlr), hdst1]
    · intro _
      exact ⟨by simp only [hdst2, hframe1 relayer hlv hlr],
             by simp only [hsrc2, hsrc1]⟩
    · intro hn
      exact absurd h6 hn
    · intro a hav har hal
      simp only [hframe2 a hav hal, hframe1 a hav har]
  · rw [if_neg h6]
    intro _
    refine ⟨by omega, ?_, ?_, ?_, ?_⟩
    · simp only [hdst1]
    · intro hc
      exact absurd hc h6
    · intro _
      exact ⟨by simp only [hframe1 relayer hlv hlr], by simp only [hsrc1]⟩
    · intro a hav har hal
      simp only [hframe1 a hav har]

end Velo.Mixer

namespace Velo

/-- C4 (amended): every accepted mixer withdrawal records the nullifier
hash and pays exactly denomination - fee to the recipient, for every fee
with 0 ≤ fee ≤ denomination; the fee goes to the relayer account exactly
when fee > 0 and the relayer identity is not the default (all-zero)
public key — with fee = 0 or the default relayer identity, no fee
transfer is made and the fee remains in the vault (the behavior the
counterexample exhibits and C10 states). -/
theorem claim_C4_amended (K : Word → Word) (s : Mixer.MixerState)
    (proof : Mixer.ZKProof) (root nh recipient relayer : Word) (fee : Nat)
    (hsucc : (Mixer.withdraw K s proof root nh recipient relayer fee).2 = none)
    (hrv : recipient ≠ s.vault) (hlv : relayer ≠ s.vault)
    (hlr : relayer ≠ recipient) :
    nh ∈ (Mixer.withdraw K s proof root nh recipient relayer fee).1.pool.nullifier_hashes ∧
    fee ≤ s.pool.denomination ∧
    (Mixer.withdraw K s proof root nh recipient relayer fee).1.ledger recipient =
      s.ledger recipient + (s.pool.denomination - fee) ∧
    ((0 < fee ∧ relayer ≠ zeroBytes32) →
      (Mixer.withdraw K s proof root nh recipient relayer fee).1.ledger relayer =
        s.ledger relayer + fee) ∧
    ((fee = 0 ∨ relayer = zeroBytes32) →
      (Mixer.withdraw K s proof root nh recipient relayer fee).1.ledger relayer =
        s.ledger relayer ∧
      (Mixer.withdraw K s proof root nh recipient relayer fee).1.ledger s.vault =
        s.ledger s.vault - (s.pool.denomination - fee)) := by
  obtain ⟨hle, hrec, hpos, hneg, _⟩ := Mixer.withdraw_payout hsucc hrv hlv hlr
  refine ⟨Mixer.withdraw_success_mem hsucc, hle, hrec, fun hc => (hpos hc).1, ?_⟩
  intro hc
  apply hneg
  rcases hc with hc | hc
  · intro hk
    omega
  · intro hk
    exact hk.2 hc

/-- C4 counterexample: a withdrawal accepted with fee = 5 > 0 and the
default (all-zero) relayer identity leaves the relayer account's balance
unchanged: the claimed payment of exactly fee to the relayer does not
happen for that relayer identity. -/
theorem claim_C4_counterexample :
    (Mixer.withdraw keccakFx mixerStateFx proofFx [1] [2] [3] zeroBytes32 5).2 = none ∧
    (0 : Nat) < 5 ∧
    (Mixer.withdraw keccakFx mixerStateFx proofFx [1] [2] [3] zeroBytes32 5).1.ledger
      zeroBytes32 = mixerStateFx.ledger zeroBytes32 ∧
    (Mixer.withdraw keccakFx mixerStateFx proofFx [1] [2] [3] zeroBytes32 5).1.ledger
      zeroBytes32 ≠ mixerStateFx.ledger zeroBytes32 + 5 := by
  refine ⟨by decide, by decide, by decide, by decide⟩

/-- C4 witness: a concrete accepted withdrawal (fee 5, relayer [4]):
the nullifier is recorded, the recipient gains denomination - fee and
the relayer gains the fee. -/
theorem claim_C4_amended_witness :
    ([2] : Word) ∈ (Mixer.withdraw keccakFx mixerStateFx proofFx
      [1] [2] [3] [4] 5).1.pool.nullifier_hashes ∧
    (Mixer.withdraw keccakFx mixerStateFx proofFx [1] [2] [3] [4] 5).1.ledger [3] =
      mixerStateFx.ledger [3] + (mixerStateFx.pool.denomination - 5) ∧
    (Mixer.withdraw keccakFx mixerStateFx proofFx [1] [2] [3] [4] 5).1.ledger [4] =
      mixerStateFx.ledger [4] + 5 := by
  have h := claim_C4_amended keccakFx mixerStateFx proofFx [1] [2] [3] [4] 5
    (by decide) (by decide) (by decide) (by decide)
  exact ⟨h.1, h.2.2.1, h.2.2.2.1 ⟨by decide, by decide⟩⟩

/-- C10: for every accepted mixer withdrawal whose relayer argument is
the default (all-zero) public key and whose fee is positive, the vault
loses only denomination - fee, the recipient gains denomination - fee
(the fee amount stays in the vault), and every other account's balance
is unchanged — in particular the all-zero address itself receives
nothing. -/
theorem claim_C10 (K : Word → Word) (s : Mixer.MixerState)
    (proof : Mixer.ZKProof) (root nh recipient : Word) (fee : Nat)
    (hfee : 0 < fee)
    (hsucc : (Mixer.withdraw K s proof root nh recipient zeroBytes32 fee).2 = none)
    (hrv : recipient ≠ s.vault) (hzv : zeroBytes32 ≠ s.vault)
    (hzr : zeroBytes32 ≠ recipient) :
    (Mixer.withdraw K s proof root nh recipient zeroBytes32 fee).1.ledger s.vault =
      s.ledger s.vault - (s.pool.denomination - fee) ∧
    (Mixer.withdraw K s proof root nh recipient zeroBytes32 fee).1.ledger recipient =
      s.ledger recipient + (s.pool.denomination - fee) ∧
    ∀ a, a ≠ s.vault → a ≠ recipient →
      (Mixer.withdraw K s proof root nh recipient zeroBytes32 fee).1.ledger a =
        s.ledger a := by
  obtain ⟨hle, hrec, hpos, hneg, hframe⟩ := Mixer.withdraw_payout hsucc hrv hzv hzr
  have hcond : ¬(0 < fee ∧ (zeroBytes32 : Word) ≠ zeroBytes32) := by simp
  refine ⟨(hneg hcond).2, hrec, ?_⟩
  intro a hav har
  by_cases hz : a = zeroBytes32
  · rw [hz]
    exact (hneg hcond).1
  · exact hframe a hav har hz

/-- C10 witness: the statement applied at a concrete accepted withdrawal
with fee 5 and the default relayer: vault down by 95, recipient up by 95,
an unrelated account untouched. -/
theorem claim_C10_witness :
    (Mixer.withdraw keccakFx mixerStateFx proofFx [1] [2] [3] zeroBytes32 5).1.ledger
      [10] = mixerStateFx.ledger [10] - (mixerStateFx.pool.denomination - 5) ∧
    (Mixer.withdraw keccakFx mixerStateFx proofFx [1] [2] [3] zeroBytes32 5).1.ledger
      [3] = mixerStateFx.ledger [3] + (mixerStateFx.pool.denomination - 5) ∧
    (Mixer.withdraw keccakFx mixerStateFx proofFx [1] [2] [3] zeroBytes32 5).1.ledger
      [77] = mixerStateFx.ledger [77] := by
  have h := claim_C10 keccakFx mixerStateFx proofFx [1] [2] [3] 5
    (by decide) (by decide) (by decide) (by decide) (by decide)
  exact ⟨h.1, h.2.1, h.2.2 [77] (by decide) (by decide)⟩

end Velo

namespace Velo.Mixer

theorem deposit_full {H : Word → Word → Word} {s : MixerState} (dep c : Word)
    (ha : s.pool.is_active = true)
    (hfull : 1 <<< MERKLE_TREE_DEPTH ≤ s.pool.merkle_tree.next_index) :
    deposit H s dep c = (s, some .MerkleTreeFull) := by
  rw [deposit, if_neg (by simp [ha]), if_pos hfull]

theorem deposit_success_index {H : Word → Word → Word} {s : MixerState}
    {dep c : Word} (hsucc : (deposit H s dep c).2 = none) :
    (deposit H s dep c).1.pool.merkle_tree.next_index =
      s.pool.merkle_tree.next_index + 1 ∧
    (s.pool.merkle_tree.insert H c).2 = s.pool.merkle_tree.next_index := by
  refine ⟨?_, rfl⟩
  revert hsucc
  simp only [deposit]
  repeat' split
  all_goals intro h
  all_goals simp_all [MerkleTree.insert]

end Velo.Mixer

namespace Velo.Core

theorem velo_deposit_unchecked (s : VeloState) (dep c : Word)
    (hfunds : s.pool.denomination ≤ s.ledger dep) :
    (deposit s dep c).2 = none ∧
    (deposit s dep c).1.pool.next_index = (s.pool.next_index + 1) % 2 ^ 32 := by
  rw [deposit]
  rcases htr : transferLamports s.ledger dep s.vault s.pool.denomination with _ | l'
  · exfalso
    rw [transferLamports, ledgerSub, if_pos hfunds] at htr
    simp at htr
  · exact ⟨rfl, rfl⟩

end Velo.Core

namespace Velo

/-- C6 (amended): the mixer variant enforces the 2^20 capacity: a deposit
on an active pool with next_index at or past 2^20 fails with
MerkleTreeFull and changes nothing, and a successful deposit consumes
leaf slot next_index (the index its insert returns) and advances
next_index by one.  The velo variant's deposit performs no capacity
check at all: with sufficient depositor funds it succeeds at every
next_index — including next_index ≥ 2^20, as the counterexample
evaluates — so the limit is not enforced in every variant. -/
theorem claim_C6_amended :
    (∀ (H : Word → Word → Word) (s : Mixer.MixerState) (dep c : Word),
        s.pool.is_active = true →
        1 <<< Mixer.MERKLE_TREE_DEPTH ≤ s.pool.merkle_tree.next_index →
        Mixer.deposit H s dep c = (s, some .MerkleTreeFull)) ∧
    (∀ (H : Word → Word → Word) (s : Mixer.MixerState) (dep c : Word),
        (Mixer.deposit H s dep c).2 = none →
        (Mixer.deposit H s dep c).1.pool.merkle_tree.next_index =
          s.pool.merkle_tree.next_index + 1 ∧
        (s.pool.merkle_tree.insert H c).2 = s.pool.merkle_tree.next_index) ∧
    (∀ (s : Core.VeloState) (dep c : Word),
        s.pool.denomination ≤ s.ledger dep →
        (Core.deposit s dep c).2 = none ∧
        (Core.deposit s dep c).1.pool.next_index = (s.pool.next_index + 1) % 2 ^ 32) :=
  ⟨fun _ _ dep c ha hfull => Mixer.deposit_full dep c ha hfull,
   fun _ _ _ _ hsucc => Mixer.deposit_success_index hsucc,
   Core.velo_deposit_unchecked⟩

/-- C6 counterexample: the velo variant's deposit, invoked with
next_index already equal to 2^20 (the capacity the claim says is
enforced in every variant), succeeds and moves next_index past the
capacity instead of failing with TreeFull. -/
theorem claim_C6_counterexample :
    veloStateFx.pool.next_index = 1 <<< 20 ∧
    (Core.deposit veloStateFx [20] commitFx).2 = none ∧
    (Core.deposit veloStateFx [20] commitFx).1.pool.next_index = 1 <<< 20 + 1 := by
  refine ⟨by decide, by decide, by decide⟩

/-- C6 witness: the amended statement applied at concrete inputs — a
full mixer pool rejects a deposit with MerkleTreeFull, a non-full one
accepts and advances next_index, and the velo deposit succeeds at the
full index. -/
theorem claim_C6_amended_witness :
    Mixer.deposit hashFx mixerStateFullFx [20] commitFx =
      (mixerStateFullFx, some .MerkleTreeFull) ∧
    (Mixer.deposit hashFx mixerStateFx [20] commitFx).1.pool.merkle_tree.next_index =
      mixerStateFx.pool.merkle_tree.next_index + 1 ∧
    (Core.deposit veloStateFx [20] commitFx).2 = none := by
  refine ⟨claim_C6_amended.1 hashFx mixerStateFullFx [20] commitFx (by decide) (by decide),
    (claim_C6_amended.2.1 hashFx mixerStateFx [20] commitFx (by decide)).1,
    (claim_C6_amended.2.2 veloStateFx [20] commitFx (by decide)).1⟩

end Velo

namespace Velo.Stealth

theorem claim_success_claimed {s : StealthState} {c p : Word}
    (hsucc : (claim_stealth_funds s c p).2 = none) :
    (claim_stealth_funds s c p).1.announcement.claimed = true := by
  revert hsucc
  simp only [claim_stealth_funds]
  repeat' split
  all_goals intro h
  all_goals simp_all

theorem claim_on_claimed {s : StealthState}
    (hc : s.announcement.claimed = true) (c p : Word) :
    claim_stealth_funds s c p = (s, some .AlreadyClaimed) := by
  rw [claim_stealth_funds, if_pos hc]

theorem runClaims_claimed (attempts : List (Word × Word)) :
    ∀ s : StealthState, s.announcement.claimed = true →
      (runClaims s attempts).announcement.claimed = true := by
  induction attempts with
  | nil => intro s h; exact h
  | cons a rest ih =>
    intro s h
    show (runClaims (claim_stealth_funds s a.1 a.2).1 rest).announcement.claimed = true
    rw [claim_on_claimed h a.1 a.2]
    exact ih s h

end Velo.Stealth

namespace Velo

/-- C7: at most one claim on a stealth announcement ever succeeds: a
successful claim sets claimed, and after any further sequence of claim
attempts every later claim on that announcement — whatever ownership
proof it supplies — fails with AlreadyClaimed and leaves the state
unchanged. -/
theorem claim_C7 (s : Stealth.StealthState) (claimer proof : Word)
    (hsucc : (Stealth.claim_stealth_funds s claimer proof).2 = none)
    (attempts : List (Word × Word)) (t : Stealth.StealthState)
    (ht : t = Stealth.runClaims (Stealth.claim_stealth_funds s claimer proof).1 attempts)
    (claimer' proof' : Word) :
    Stealth.claim_stealth_funds t claimer' proof' = (t, some .AlreadyClaimed) := by
  have h1 := Stealth.claim_success_claimed hsucc
  have h2 : t.announcement.claimed = true := by
    rw [ht]
    exact Stealth.runClaims_claimed attempts _ h1
  exact Stealth.claim_on_claimed h2 claimer' proof'

/-- C7 witness: after the concrete successful claim by [8], a second
claim by a different claimer with a different (valid-looking) proof
fails with AlreadyClaimed and changes nothing. -/
theorem claim_C7_witness :
    Stealth.claim_stealth_funds stealthClaimedFx [9] (List.replicate 64 2) =
      (stealthClaimedFx, some .AlreadyClaimed) :=
  claim_C7 stealthStateFx [8] (List.replicate 64 1) (by decide) [] stealthClaimedFx rfl
    [9] (List.replicate 64 2)

end Velo

namespace Velo.Core

theorem shuffle_success_fields {s : DecoyState} {slot idx : Nat} {dv : Word}
    {amt : Nat} {dir : Bool}
    (hsucc : (shuffle s slot idx dv amt dir).2 = none) :
    (shuffle s slot idx dv amt dir).1.config.last_shuffle_slot = slot ∧
    (shuffle s slot idx dv amt dir).1.config.total_shuffles =
      s.config.total_shuffles + 1 ∧
    (shuffle s slot idx dv amt dir).1.config.num_decoy_vaults =
      s.config.num_decoy_vaults ∧
    (shuffle s slot idx dv amt dir).1.config.enabled = true := by
  revert hsucc
  simp only [shuffle]
  repeat' split
  all_goals intro h
  all_goals simp_all

end Velo.Core

namespace Velo

/-- C9: a successful shuffle records the current ledger height in
lastShuffleHeight and increments totalShuffles by exactly one, and any
second shuffle (with the system still enabled and a valid decoy index)
invoked at a height within 2 units of that recorded height fails with
ShuffleRateLimited, leaving the state unchanged. -/
theorem claim_C9 (s : Core.DecoyState) (slot1 idx1 : Nat) (dv1 : Word)
    (amt1 : Nat) (dir1 : Bool)
    (hsucc : (Core.shuffle s slot1 idx1 dv1 amt1 dir1).2 = none)
    (slot2 idx2 : Nat) (dv2 : Word) (amt2 : Nat) (dir2 : Bool)
    (hidx : idx2 < s.config.num_decoy_vaults)
    (hnear : slot2 ≤ slot1 + 2) :
    Core.shuffle (Core.shuffle s slot1 idx1 dv1 amt1 dir1).1 slot2 idx2 dv2 amt2 dir2 =
      ((Core.shuffle s slot1 idx1 dv1 amt1 dir1).1, some .ShuffleRateLimited) ∧
    (Core.shuffle s slot1 idx1 dv1 amt1 dir1).1.config.last_shuffle_slot = slot1 ∧
    (Core.shuffle s slot1 idx1 dv1 amt1 dir1).1.config.total_shuffles =
      s.config.total_shuffles + 1 := by
  obtain ⟨hlast, htot, hnum, hen⟩ := Core.shuffle_success_fields hsucc
  refine ⟨?_, hlast, htot⟩
  rw [Core.shuffle, if_neg (by rw [hen]; simp), if_neg (by rw [hnum]; omega),
    if_pos (by rw [hlast]; omega)]

/-- C9 witness: a concrete successful shuffle at height 10 followed by a
second attempt at height 12 (within the 2-unit spacing): the second
fails with ShuffleRateLimited; the first recorded height 10 and bumped
the counter. -/
theorem claim_C9_witness :
    Core.shuffle (Core.shuffle decoyStateFx 10 0 [31] 5 true).1 12 1 [32] 5 false =
      ((Core.shuffle decoyStateFx 10 0 [31] 5 true).1, some .ShuffleRateLimited) ∧
    (Core.shuffle decoyStateFx 10 0 [31] 5 true).1.config.last_shuffle_slot = 10 ∧
    (Core.shuffle decoyStateFx 10 0 [31] 5 true).1.config.total_shuffles =
      decoyStateFx.config.total_shuffles + 1 :=
  claim_C9 decoyStateFx 10 0 [31] 5 true (by decide) 12 1 [32] 5 false
    (by decide) (by decide)

/-- C2 (code bug): the deployed verifiers do not bind the public inputs
to the proof at all.  The velo verify_proof returns true for every proof
and every public input, so the identical proof is accepted with
recipient [3] and again with a different recipient [4]; the mixer
verify_proof only hashes the public inputs and compares the digest with
zero, so it likewise accepts the identical proof under both recipients.
The claim (spec rule: reject on any public-input mismatch) states the
documented intent that the code's TODO placeholders fail to implement. -/
theorem claim_C2_stub_accepts :
    Core.verify_proof veloProofFx [1] [2] [3] 100 = true ∧
    Core.verify_proof veloProofFx [1] [2] [4] 100 = true ∧
    ([3] : Word) ≠ [4] ∧
    Mixer.verify_proof keccakFx proofFx [1] [2] [3] [5] 7 = true ∧
    Mixer.verify_proof keccakFx proofFx [1] [2] [4] [5] 7 = true := by
  refine ⟨by decide, by decide, by decide, by decide, by decide⟩

/-- C8 (code bug): verify_stealth_ownership accepts any 64-byte proof
that is not all-zero — it takes no ephemeral key, view key or spend key
and verifies no derivation (the same proof passes for two unrelated
stealth addresses) — so a claim by any signer carrying such a proof
succeeds and releases the funds, contrary to the documented intent that
only the holder of the derived spending authority can claim. -/
theorem claim_C8_stub_accepts :
    Stealth.verify_stealth_ownership [7] [8] (List.replicate 64 1) = true ∧
    Stealth.verify_stealth_ownership [99] [8] (List.replicate 64 1) = true ∧
    (Stealth.claim_stealth_funds stealthStateFx [8] (List.replicate 64 1)).2 = none ∧
    (Stealth.claim_stealth_funds stealthStateFx [8] (List.replicate 64 1)).1.ledger [8] =
      stealthStateFx.ledger [8] + stealthStateFx.ledger [7] := by
  refine ⟨by decide, by decide, by decide, by decide⟩

end Velo
